import Mathlib

/-!
Verification development for the ClaritySpectra Raman-analysis engine.

The Python sources are shallowly embedded over exact rational arithmetic
(`ℚ` models the float values; numpy exceptions caught by the surrounding
`try/except` blocks are modelled as the explicit zero-score outcome, and
Python errors that escape are modelled with `Except`).  External library
calls that the repository does not implement itself (scipy's sparse
solver, `fastdtw`, `scipy.signal.find_peaks`, `difflib`'s similarity
ratio) are passed in as function parameters, so every theorem quantifies
over the collaborator's behaviour.  Real-valued score interpretations
(which involve square roots and exponentials) are expressed over `ℝ`,
while all control flow and branching is computable over `ℚ`.
-/

set_option maxRecDepth 4000

/-- Population mean of a rational list (`np.mean`); division by zero yields 0
for the empty list, matching the convention used throughout. -/
def qmean (l : List ℚ) : ℚ := l.sum / l.length

/-- Population variance of a rational list (`np.std(x)**2`, `ddof = 0`).
The code's test `np.std(x) == 0` holds exactly when the variance is zero, so
all zero-variance branches are modelled through this function. -/
def popVar (l : List ℚ) : ℚ := (l.map (fun x => (x - qmean l) ^ 2)).sum / l.length

/-- Population covariance of two equal-length rational lists. -/
def covP (a b : List ℚ) : ℚ :=
  ((a.zip b).map (fun p => (p.1 - qmean a) * (p.2 - qmean b))).sum / a.length

/-- Minimum of a nonempty rational list (`np.min`); 0 on the empty list, a
case that is always guarded before use. -/
def listMin : List ℚ → ℚ
  | [] => 0
  | x :: xs => xs.foldl min x

/-- Maximum of a nonempty rational list (`np.max`); 0 on the empty list. -/
def listMax : List ℚ → ℚ
  | [] => 0
  | x :: xs => xs.foldl max x

/-- Evenly spaced grid (`np.linspace a b n`), endpoint included; `n = 1`
gives `[a]` exactly as numpy does. -/
def linspace (a b : ℚ) (n : ℕ) : List ℚ :=
  if n = 0 then []
  else if n = 1 then [a]
  else (List.range n).map (fun i : ℕ => a + (b - a) * (i : ℚ) / ((n : ℚ) - 1))

/-- Piecewise-linear interpolation of one point (`np.interp x xs ys`): values
left of `xs.head` clamp to `ys.head`, values right of the last node clamp to
the last ordinate, interior points are interpolated on their segment.  The
catch-all cases (empty or mismatched lists) return 0; all call sites guard
them, mirroring the `ValueError` that numpy would raise being caught. -/
def npInterp : List ℚ → List ℚ → ℚ → ℚ
  | x0 :: x1 :: xs, y0 :: y1 :: ys, x =>
    if x ≤ x0 then y0
    else if x ≤ x1 then y0 + (y1 - y0) * (x - x0) / (x1 - x0)
    else npInterp (x1 :: xs) (y1 :: ys) x
  | [_], y0 :: _, _ => y0
  | _, _, _ => 0

/-- Clamp a real score into `[0, 1]` (`max(0, min(1, s))`). -/
def clip01 (x : ℝ) : ℝ := max 0 (min 1 x)

/-- Clamp a rational score into `[0, 1]` (`max(0, min(1, s))`). -/
def clipQ (x : ℚ) : ℚ := max 0 (min 1 x)

/-- Query-side state used by the scorers in `raman_analysis_app_qt6.py`:
`self.current_wavenumbers`, `self.processed_intensities` and
`self.detected_peaks` (indices into the query arrays, `None` when no peak
detection has been run). -/
structure QueryState where
  current_wavenumbers : List ℚ
  processed_intensities : List ℚ
  detected_peaks : Option (List ℕ)
deriving DecidableEq

/-- Result of `calculate_correlation_score`: either the literal `0.0` from
one of the early-exit branches, or the absolute clipped Pearson correlation
of the two interpolated series (kept symbolically, since the correlation
coefficient involves square roots). -/
inductive CorrOut where
  | zero
  | pearson (qI dI : List ℚ)
deriving DecidableEq

/-- Common interpolation grid of `calculate_correlation_score`: a linspace
over the intersection of the wavenumber ranges with
`min(len(query), len(db))` points. -/
def corrGrid (st : QueryState) (dw : List ℚ) : List ℚ :=
  linspace (max (listMin st.current_wavenumbers) (listMin dw))
    (min (listMax st.current_wavenumbers) (listMax dw))
    (min st.current_wavenumbers.length dw.length)

/-- Query spectrum resampled onto the common grid. -/
def corrQueryInterp (st : QueryState) (dw : List ℚ) : List ℚ :=
  (corrGrid st dw).map (npInterp st.current_wavenumbers st.processed_intensities)

/-- Database spectrum resampled onto the common grid. -/
def corrDbInterp (st : QueryState) (dw di : List ℚ) : List ℚ :=
  (corrGrid st dw).map (npInterp dw di)

/-- Embedding of `calculate_correlation_score` (qt6 app, lines 2175-2218).
The wrapping `try/except` turns any numpy exception into `0.0`; those
exception sites (empty query array for `.min()`, length mismatches for
`np.interp`) appear as explicit `.zero` branches. -/
def calculate_correlation_score (st : QueryState) (dw di : List ℚ) : CorrOut :=
  if dw.length = 0 ∨ di.length = 0 then .zero
  else if st.current_wavenumbers = [] then .zero
  else if st.current_wavenumbers.length ≠ st.processed_intensities.length then .zero
  else if dw.length ≠ di.length then .zero
  else
    let qI := corrQueryInterp st dw
    let dI := corrDbInterp st dw di
    if popVar qI = 0 ∨ popVar dI = 0 then .zero
    else .pearson qI dI

/-- Real value returned by `calculate_correlation_score`.  In exact
arithmetic the z-scoring performed by the code leaves the Pearson
coefficient unchanged, so `np.corrcoef(query_norm, db_norm)[0, 1]` equals
`cov(qI, dI) / (sqrt(var qI) * sqrt(var dI))`; the code then takes the
absolute value and clips into `[0, 1]`. -/
noncomputable def CorrOut.val : CorrOut → ℝ
  | .zero => 0
  | .pearson qI dI =>
      clip01 |(covP qI dI : ℝ) / (Real.sqrt (popVar qI) * Real.sqrt (popVar dI))|

/-- Result of `calculate_dtw_score`: the literal `0.0`, a similarity
`exp(-scaledDistance)` kept symbolically, or — when the `fastdtw` import
fails — whatever `calculate_correlation_score` returned for the same
inputs. -/
inductive DtwOut where
  | zero
  | expScore (scaled : ℚ)
  | fromCorr (c : CorrOut)
deriving DecidableEq

/-- Common interpolation grid of `calculate_dtw_score`: at most 200 points
over the overlapping wavenumber range. -/
def dtwGrid (st : QueryState) (dw : List ℚ) : List ℚ :=
  linspace (max (listMin st.current_wavenumbers) (listMin dw))
    (min (listMax st.current_wavenumbers) (listMax dw))
    (min 200 (min st.current_wavenumbers.length dw.length))

/-- Query spectrum resampled onto the DTW grid. -/
def dtwQueryInterp (st : QueryState) (dw : List ℚ) : List ℚ :=
  (dtwGrid st dw).map (npInterp st.current_wavenumbers st.processed_intensities)

/-- Database spectrum resampled onto the DTW grid. -/
def dtwDbInterp (st : QueryState) (dw di : List ℚ) : List ℚ :=
  (dtwGrid st dw).map (npInterp dw di)

/-- Min-max normalisation to `[0, 1]` as performed before the DTW call: the
series is rescaled only when `max > min`, and left unchanged otherwise. -/
def minmaxNorm (l : List ℚ) : List ℚ :=
  if listMin l < listMax l then
    l.map (fun x => (x - listMin l) / (listMax l - listMin l))
  else l

/-- Type of the external `fastdtw` collaborator: from the two normalised
series it produces the alignment cost and the warping-path length (only
`len(path)` is consumed by the caller). -/
def DtwFun : Type := List ℚ → List ℚ → ℚ × ℕ

/-- Embedding of `calculate_dtw_score` (qt6 app, lines 2220-2303).  The
`fastdtw` import is modelled by the `Option DtwFun` argument: `none` is the
`ImportError` branch, which falls back to the correlation score.  All other
caught exceptions appear as `.zero` branches, mirroring the
`except Exception: return 0.0` handler. -/
def calculate_dtw_score (impl : Option DtwFun) (st : QueryState) (dw di : List ℚ) : DtwOut :=
  match impl with
  | none => .fromCorr (calculate_correlation_score st dw di)
  | some f =>
    if dw.length = 0 ∨ di.length = 0 then .zero
    else if st.current_wavenumbers = [] then .zero
    else
      let qw := st.current_wavenumbers
      let lo := max (listMin qw) (listMin dw)
      let hi := min (listMax qw) (listMax dw)
      let qrange := listMax qw - listMin qw
      let drange := listMax dw - listMin dw
      if hi - lo < 3 / 10 * min qrange drange then .zero
      else if qw.length ≠ st.processed_intensities.length ∨ dw.length ≠ di.length then .zero
      else
        let qI := dtwQueryInterp st dw
        let dI := dtwDbInterp st dw di
        if popVar qI = 0 ∨ popVar dI = 0 then .zero
        else
          let r := f (minmaxNorm qI) (minmaxNorm dI)
          if 0 < r.2 then .expScore (r.1 / r.2 * 2) else .zero

/-- Real value returned by `calculate_dtw_score`: the exponential-decay
similarity `exp(-(normalizedDistance * 2))` clipped into `[0, 1]`, or the
correlation score when the import failed. -/
noncomputable def DtwOut.val : DtwOut → ℝ
  | .zero => 0
  | .expScore s => clip01 (Real.exp (-(s : ℝ)))
  | .fromCorr c => c.val

/-- Path length reported by the DTW collaborator on the two resampled,
min-max-normalised series. -/
def dtwPathLen (f : DtwFun) (st : QueryState) (dw di : List ℚ) : ℕ :=
  (f (minmaxNorm (dtwQueryInterp st dw)) (minmaxNorm (dtwDbInterp st dw di))).2

/-- Scaled distance fed to the exponential: the DTW cost divided by the path
length, times 2. -/
def dtwScaled (f : DtwFun) (st : QueryState) (dw di : List ℚ) : ℚ :=
  (f (minmaxNorm (dtwQueryInterp st dw)) (minmaxNorm (dtwDbInterp st dw di))).1 /
    (dtwPathLen f st dw di : ℚ) * 2

/-- Type of the external `scipy.signal.find_peaks` collaborator as used by
`calculate_peak_score`: intensities and an absolute height threshold give a
list of peak indices. -/
def FindPeaksFun : Type := List ℚ → ℚ → List ℕ

/-- First index of the minimal value of `|x - c|` over a list
(`np.argmin(np.abs(arr - c))`): ties keep the earlier index. -/
def argminAbs (c : ℚ) : List ℚ → ℕ
  | [] => 0
  | x :: xs =>
    (xs.foldl
      (fun acc y =>
        if |y - c| < acc.2.1 then (acc.2.2, |y - c|, acc.2.2 + 1)
        else (acc.1, acc.2.1, acc.2.2 + 1))
      (0, |x - c|, 1)).1

/-- Embedding of `calculate_peak_score` (qt6 app, lines 2305-2363).  The
result is fully rational, so the clipped score itself is returned; every
caught exception (for instance fancy indexing with an out-of-range peak
index) appears as a literal `0` branch. -/
def calculate_peak_score (fp : FindPeaksFun) (st : QueryState) (dw di : List ℚ) : ℚ :=
  match st.detected_peaks with
  | none => 0
  | some dp =>
    if dp = [] then 0
    else if dp.any (fun i =>
        st.current_wavenumbers.length ≤ i ∨ st.processed_intensities.length ≤ i) then 0
    else
      let cpp := dp.map (fun i => st.current_wavenumbers.getD i 0)
      let cpi := dp.map (fun i => st.processed_intensities.getD i 0)
      if dw.length = 0 ∨ di.length = 0 then 0
      else
        let dbPeaks := fp di (listMax di * (1 / 10))
        if dbPeaks = [] then 0
        else if dbPeaks.any (fun i => dw.length ≤ i ∨ di.length ≤ i) then 0
        else
          let dbpp := dbPeaks.map (fun i => dw.getD i 0)
          let dbpi := dbPeaks.map (fun i => di.getD i 0)
          let acc := (cpp.zip cpi).foldl
            (fun (acc : ℕ × ℚ) p =>
              let j := argminAbs p.1 dbpp
              if |dbpp.getD j 0 - p.1| ≤ 20 then
                (acc.1 + 1, acc.2 + |p.2 / listMax cpi - dbpi.getD j 0 / listMax dbpi|)
              else acc)
            (0, 0)
          if acc.1 = 0 then 0
          else clipQ (7 / 10 * (acc.1 / cpp.length) + 3 / 10 * (1 - acc.2 / acc.1))

/-- Result of `calculate_combined_score`: the pair of sub-scores whose
weighted combination `0.3 * correlation + 0.7 * DTW` is then clipped. -/
structure CombinedOut where
  corr : CorrOut
  dtw : DtwOut
deriving DecidableEq

/-- Embedding of `calculate_combined_score` (qt6 app, lines 2365-2380). -/
def calculate_combined_score (impl : Option DtwFun) (st : QueryState) (dw di : List ℚ) :
    CombinedOut :=
  ⟨calculate_correlation_score st dw di, calculate_dtw_score impl st dw di⟩

/-- Real value returned by `calculate_combined_score`. -/
noncomputable def CombinedOut.val (c : CombinedOut) : ℝ :=
  clip01 (3 / 10 * c.corr.val + 7 / 10 * c.dtw.val)

/-- Substring test (`needle in hay` on Python strings, which is true for the
empty needle). -/
def substrOf : List Char → List Char → Bool
  | needle, [] => needle == []
  | needle, c :: rest => needle.isPrefixOf (c :: rest) || substrOf needle rest

/-- Python truncation `int(q)` (toward zero). -/
def pyTrunc (q : ℚ) : ℤ := if 0 ≤ q then q.floor else -((-q).floor)

/-- Python's `d.get(k1) or d.get(k2, "")` idiom: the first value wins unless
it is missing or the empty string (both falsy). -/
def pyGetOr (a b : Option String) : String :=
  match a with
  | some s => if s = "" then b.getD "" else s
  | none => b.getD ""

/-- Shapes of the `peaks` field of a database entry that
`spectrum_passes_filters` distinguishes: the original-app dict
`{"wavenumbers": array-or-None}`, a plain list whose entries may be `None`,
or anything else (including a missing key, which `data.get('peaks', [])`
turns into the empty list — represented here by `listPeaks []`). -/
inductive PeaksData where
  | dictPeaks (wavenumbers : Option (List ℚ))
  | listPeaks (ps : List (Option ℚ))
deriving DecidableEq

/-- Metadata keys consulted by the filters, each historical spelling kept
separately (`None` models a missing key). -/
structure Metadata where
  chemFamilyUC : Option String := none
  chemFamilyTC : Option String := none
  heyClassUC : Option String := none
  chemElemsUC : Option String := none
  chemElemsTC : Option String := none
  formulaUC : Option String := none
  formulaTC : Option String := none
deriving DecidableEq

/-- Database entry as consumed by the advanced search. -/
structure Entry where
  wavenumbers : List ℚ := []
  intensities : List ℚ := []
  metadata : Metadata := {}
  peaks : PeaksData := .listPeaks []
  timestamp : String := ""
deriving DecidableEq

/-- Filter set produced by `parse_advanced_filters`; a `none` field means the
key is absent from the dict. -/
structure Filters where
  peak_positions : Option (List ℚ) := none
  peak_tolerance : Option ℚ := none
  chemical_family : Option String := none
  hey_classification : Option String := none
  only_elements : Option (List String) := none
  required_elements : Option (List String) := none
  exclude_elements : Option (List String) := none
deriving DecidableEq

/-- Peak list the code extracts from an entry (`valid_spectrum_peaks` in
`spectrum_passes_filters`, lines 2013-2059): `none` means the code hit a
`return False` while looking for usable peak data.  A list is classified as
legacy indices when the entry has wavenumbers and every non-`None` element
lies in `[0, len(wavenumbers))`; those elements are converted through the
entry's wavenumber array (`None` entries and, in the re-check, out-of-range
truncations are skipped).  Any other nonempty list is read as direct
wavenumber values, keeping only values above the `> 50` sanity cutoff. -/
def valid_spectrum_peaks (E : Entry) : Option (List ℚ) :=
  match E.peaks with
  | .dictPeaks ws? =>
    match ws? with
    | some ws => if ws = [] then none else some ws
    | none => none
  | .listPeaks ps =>
    if ps = [] then none
    else if E.wavenumbers ≠ [] ∧ ps.all (fun p? =>
        match p? with
        | some p => decide (0 ≤ p ∧ p < E.wavenumbers.length)
        | none => true) then
      some (ps.filterMap (fun p? =>
        match p? with
        | some p =>
          let i := pyTrunc p
          if 0 ≤ i ∧ i < (E.wavenumbers.length : ℤ) then some (E.wavenumbers.getD i.toNat 0)
          else none
        | none => none))
    else
      some (ps.filterMap (fun p? =>
        match p? with
        | some p => if 50 < p then some p else none
        | none => none))

/-- Peak-position part of `spectrum_passes_filters`: every required
wavenumber must be within `tolerance` of some extracted peak. -/
def passes_peak_filter (E : Entry) (required : List ℚ) (tolerance : ℚ) : Bool :=
  match valid_spectrum_peaks E with
  | none => false
  | some valid => required.all (fun r => valid.any (fun p => |p - r| ≤ tolerance))

/-- Chemical-family part of `spectrum_passes_filters`: case-insensitive
substring match against either spelling of the metadata key; an empty or
missing value fails. -/
def checkFamily (F : Filters) (E : Entry) : Bool :=
  match F.chemical_family with
  | none => true
  | some fam =>
    let sf := pyGetOr E.metadata.chemFamilyUC E.metadata.chemFamilyTC
    !(sf == "") && substrOf fam.toLower.toList sf.toLower.toList

/-- Hey-classification part of `spectrum_passes_filters`. -/
def checkHey (F : Filters) (E : Entry) : Bool :=
  match F.hey_classification with
  | none => true
  | some hc =>
    let sh := (E.metadata.heyClassUC).getD ""
    !(sh == "") && substrOf hc.toLower.toList sh.toLower.toList

/-- Element tokens extracted from a chemical formula: the regex
`[A-Z][a-z]?` scanned left to right without overlap. -/
def elemTokens : List Char → List String
  | [] => []
  | c :: rest =>
    if c.isUpper then
      match rest with
      | d :: rest2 =>
        if d.isLower then String.mk [c, d] :: elemTokens rest2
        else String.mk [c] :: elemTokens (d :: rest2)
      | [] => [String.mk [c]]
    else elemTokens rest

/-- Element set of an entry: a comma-separated "chemistry elements" field
when present (trimmed, uppercased), else formula tokens; `none` when the
entry has no element data at all. -/
def entryElements (E : Entry) : Option (List String) :=
  let chem := pyGetOr E.metadata.chemElemsUC E.metadata.chemElemsTC
  let formula := pyGetOr E.metadata.formulaUC E.metadata.formulaTC
  let src := if chem ≠ "" then chem else formula
  if src = "" then none
  else if chem ≠ "" then some ((chem.splitOn ",").map (fun t => t.trim.toUpper))
  else some (elemTokens formula.toList)

/-- Element-filter part of `spectrum_passes_filters`: subset, superset and
disjointness tests; an entry without element data fails whenever any element
filter is present. -/
def checkElements (F : Filters) (E : Entry) : Bool :=
  if F.only_elements.isNone && F.required_elements.isNone && F.exclude_elements.isNone then
    true
  else
    match entryElements E with
    | none => false
    | some els =>
      (match F.only_elements with
       | none => true
       | some allowed => els.all (fun e => allowed.contains e)) &&
      (match F.required_elements with
       | none => true
       | some req => req.all (fun e => els.contains e)) &&
      (match F.exclude_elements with
       | none => true
       | some exc => !(els.any (fun e => exc.contains e)))

/-- Embedding of `spectrum_passes_filters` (qt6 app, lines 2008-2126); the
sequential early `return False` structure is the `&&` chain. -/
def spectrum_passes_filters (F : Filters) (E : Entry) : Bool :=
  (match F.peak_positions with
   | none => true
   | some req => passes_peak_filter E req (F.peak_tolerance.getD 10)) &&
  checkFamily F E && checkHey F E && checkElements F E

/-- Embedding of `apply_metadata_filters` (qt6 app, lines 1997-2006). -/
def apply_metadata_filters (db : List (String × Entry)) (F : Filters) :
    List (String × Entry) :=
  db.filter (fun kv => spectrum_passes_filters F kv.2)

/-- Search result record (name, score, carried-over entry fields). -/
structure SearchMatch where
  name : String
  score : ℚ
  metadata : Metadata
  peaks : PeaksData
  timestamp : String
deriving DecidableEq

/-- Embedding of `search_filtered_candidates` (qt6 app, lines 2128-2173).
The four algorithm branches all call one of the similarity scorers on the
candidate's arrays; that family is abstracted into the `scorer` parameter
(the scorers themselves are modelled separately), as the claims about this
function do not depend on which algorithm was selected. -/
def search_filtered_candidates (scorer : String → Entry → ℚ)
    (cands : List (String × Entry)) (n : ℕ) (threshold : ℚ) : List SearchMatch :=
  let ms := cands.filterMap (fun kv =>
    if kv.2.wavenumbers.length = 0 ∨ kv.2.intensities.length = 0 then none
    else
      let s := scorer kv.1 kv.2
      if threshold ≤ s then
        some ⟨kv.1, s, kv.2.metadata, kv.2.peaks, kv.2.timestamp⟩
      else none)
  (ms.mergeSort (fun a b => decide (b.score ≤ a.score))).take n

/-- Embedding of the search core of `perform_advanced_search` (qt6 app,
lines 1833-1960): parse results are taken as the `Filters` argument, UI
calls are dropped, and the returned match list is the observable outcome
(the early `return` on an empty candidate set shows no matches, i.e. `[]`).
A search is peak-only exactly when `peak_positions` is present and
nonempty; such candidates bypass scoring, get score `1.0`, are sorted by
name and truncated to `n_matches`. -/
def perform_advanced_search (scorer : String → Entry → ℚ) (db : List (String × Entry))
    (F : Filters) (n : ℕ) (threshold : ℚ) : List SearchMatch :=
  let is_peak_only := match F.peak_positions with
    | some ps => decide (ps ≠ [])
    | none => false
  let cands := apply_metadata_filters db F
  if cands = [] then []
  else if is_peak_only then
    let ms := cands.map (fun kv =>
      (⟨kv.1, 1, kv.2.metadata, kv.2.peaks, kv.2.timestamp⟩ : SearchMatch))
    (ms.mergeSort (fun a b => decide (a.name ≤ b.name))).take n
  else search_filtered_candidates scorer cands n threshold

/-- Python-level errors that escape the embedded legacy functions. -/
inductive PyError where
  | unboundLocal
  | valueError
deriving DecidableEq

/-- Type of the external `scipy.sparse.linalg.spsolve` collaborator inside
`baseline_als`: from the current weights, the smoothness parameter and the
input spectrum it returns the solution of
`(diag(w) + lam * D * D.T) z = w * y`. -/
def SparseSolve : Type := List ℚ → ℚ → List ℚ → List ℚ

/-- Asymmetric weight update of `baseline_als`:
`w = p * (y > z) + (1 - p) * (y <= z)` elementwise. -/
def alsWeightUpdate (p : ℚ) (y z : List ℚ) : List ℚ :=
  List.zipWith (fun yi zi => if zi < yi then p else 1 - p) y z

/-- Iteration loop of `baseline_als`; `none` when zero iterations run, in
which case the local variable `z` was never assigned. -/
def alsGo (solve : SparseSolve) (y : List ℚ) (lam p : ℚ) : ℕ → List ℚ → Option (List ℚ)
  | 0, _ => none
  | k + 1, w =>
    let z := solve w lam y
    some ((alsGo solve y lam p k (alsWeightUpdate p y z)).getD z)

/-- Embedding of `baseline_als` (tkinter_legacy/raman_spectra.py, lines
1364-1394).  `niter` is a Python int, so it may be negative; `range(niter)`
is then empty and `return z` raises `UnboundLocalError`.  No parameter
validation of any kind is performed. -/
def baseline_als (solve : SparseSolve) (y : List ℚ) (lam p : ℚ) (niter : ℤ) :
    Except PyError (List ℚ) :=
  match alsGo solve y lam p niter.toNat (List.replicate y.length 1) with
  | none => .error .unboundLocal
  | some z => .ok z

/-- Embedding of `subtract_background` (tkinter_legacy/raman_spectra.py,
lines 1396-1430): raises when no spectrum is loaded, computes the ALS
baseline, subtracts it and sets negative values to zero, returning
`(corrected, baseline)`.  The guard models numpy's error on incompatible
array lengths; a solver honouring scipy's shape contract never hits it. -/
def subtract_background (solve : SparseSolve) (current : Option (List ℚ))
    (lam p : ℚ) (niter : ℤ) : Except PyError (List ℚ × List ℚ) :=
  match current with
  | none => .error .valueError
  | some y =>
    match baseline_als solve y lam p niter with
    | .error e => .error e
    | .ok z =>
      if y.length = z.length then
        .ok (List.zipWith (fun a b => max 0 (a - b)) y z, z)
      else .error .valueError

/-- Lowercasing of a Python string modelled on character lists. -/
def toLowerL (s : List Char) : List Char := s.map Char.toLower

/-- Python `str.strip()`: whitespace removed from both ends. -/
def trimL (s : List Char) : List Char :=
  ((s.dropWhile fun c => c.isWhitespace).reverse.dropWhile fun c => c.isWhitespace).reverse

/-- Python `c.isalnum() or c.isspace()` for the ASCII range relevant to
mineral names. -/
def keepAlnumSpace (c : Char) : Bool := c.isAlpha || c.isDigit || c.isWhitespace

/-- Whitespace-separated words of a character list (Python `str.split()`);
the accumulator carries the current word reversed. -/
def wordsAux : List Char → List Char → List (List Char)
  | [], acc => if acc = [] then [] else [acc.reverse]
  | c :: rest, acc =>
    if c.isWhitespace then
      if acc = [] then wordsAux rest [] else acc.reverse :: wordsAux rest []
    else wordsAux rest (c :: acc)

/-- Python `' '.join(s.split())`: whitespace runs collapsed to single
spaces, ends trimmed. -/
def normalizeWsL (s : List Char) : List Char := List.intercalate [' '] (wordsAux s [])

/-- Suffix list of `_clean_mineral_name`, in source order. -/
def commonTails : List (List Char) :=
  ["-type".toList, " var.".toList, " var ".toList, " group".toList, " series".toList,
   " family".toList, " like".toList, " structure".toList, " form".toList,
   "-rich".toList, "-poor".toList]

/-- Leading-word list of `_clean_mineral_name`, in source order. -/
def commonHeads : List (List Char) :=
  ["hydro".toList, "meta".toList, "para".toList, "proto".toList, "pseudo".toList,
   "ortho".toList, "clino".toList]

/-- Drop the first matching suffix from the tail and strip (`break` after
the first hit). -/
def stripTailTokens : List (List Char) → List Char → List Char
  | [], s => s
  | t :: ts, s =>
    if t.isSuffixOf s then trimL (s.take (s.length - t.length))
    else stripTailTokens ts s

/-- Drop the first matching leading word when a non-trivial remainder is
left (`len(cleaned) > len(p) + 1`), and strip. -/
def stripHeadTokens : List (List Char) → List Char → List Char
  | [], s => s
  | t :: ts, s =>
    if t.isPrefixOf s && decide (t.length + 1 < s.length) then trimL (s.drop t.length)
    else stripHeadTokens ts s

/-- Embedding of `_clean_mineral_name` (tkinter_legacy/raman_spectra.py,
lines 1168-1207): lowercase and strip, drop one known suffix, drop one known
leading word, keep only alphanumerics and spaces, normalize whitespace. -/
def clean_mineral_name (name : List Char) : List Char :=
  let c1 := trimL (toLowerL name)
  let c2 := stripTailTokens commonTails c1
  let c3 := stripHeadTokens commonHeads c2
  normalizeWsL (c3.filter keepAlnumSpace)

/-- Type of the external `difflib.SequenceMatcher(None, a, b).ratio()`
collaborator used by the fuzzy stage. -/
def RatioFun : Type := List Char → List Char → ℚ

/-- Fuzzy stage of `match_mineral_name`: scan the table keeping the first
strictly-best candidate whose ratio is at least the threshold
(`best_score` starts at 0); the Python `if best_match:` truthiness test
additionally drops an empty-string best key. -/
def fuzzyStep {α : Type} (ratio : RatioFun) (cleaned : List Char) (threshold : ℚ)
    (acc : Option (List Char × α × ℚ)) (kv : List Char × α) : Option (List Char × α × ℚ) :=
  let r := ratio cleaned (toLowerL kv.1)
  let bs := match acc with
    | none => 0
    | some (_, _, s) => s
  if bs < r ∧ threshold ≤ r then some (kv.1, kv.2, r) else acc

def fuzzyBest {α : Type} (ratio : RatioFun) (hey : List (List Char × α))
    (cleaned : List Char) (threshold : ℚ) : Option (List Char × α) :=
  match hey.foldl (fuzzyStep ratio cleaned threshold) none with
  | some (k, m, _) => if k = [] then none else some (k, m)
  | none => none

/-- Embedding of `match_mineral_name` (tkinter_legacy/raman_spectra.py,
lines 1494-1559).  The Hey-classification table is an association list in
iteration order; `none` is the `(None, None)` result.  Guards: falsy input
name, empty table, and a name whose cleaned form is empty all return before
any lookup stage runs.  Stages: exact key, cleaned key, cleaned name
contained in a lowercased key, then fuzzy matching. -/
def match_mineral_name {α : Type} (ratio : RatioFun) (hey : List (List Char × α))
    (name : List Char) (threshold : ℚ) : Option (List Char × α) :=
  if name.isEmpty || hey.isEmpty then none
  else
    let cleaned := clean_mineral_name name
    if cleaned.isEmpty then none
    else
      match hey.lookup name with
      | some m => some (name, m)
      | none =>
        match hey.lookup cleaned with
        | some m => some (cleaned, m)
        | none =>
          match hey.find? (fun kv => substrOf cleaned (toLowerL kv.1)) with
          | some kv => some (kv.1, kv.2)
          | none => fuzzyBest ratio hey cleaned threshold

/-- Embedding of `remove_from_database` (tkinter_legacy/raman_spectra.py,
lines 1625-1643): delete the key when present and report success (the
`save_database` persistence call is an external collaborator). -/
def remove_from_database {α : Type} (db : List (String × α)) (name : String) :
    List (String × α) × Bool :=
  if db.any (fun kv => decide (kv.1 = name)) then
    (db.eraseP (fun kv => decide (kv.1 = name)), true)
  else (db, false)

/-- Statement of claim C3's notion of "the entry's peak data", following the
claim's words rather than the code: the dict's wavenumbers as given, legacy
index lists converted through the entry's wavenumber array with `None` and
out-of-range entries skipped, and every numeric value of any other list.
This definition exists to compare the claimed filter behaviour against the
implemented one. -/
def claimedEntryPeaks (E : Entry) : List ℚ :=
  match E.peaks with
  | .dictPeaks ws? => ws?.getD []
  | .listPeaks ps =>
    if E.wavenumbers ≠ [] ∧ ps.all (fun p? =>
        match p? with
        | some p => decide (0 ≤ p ∧ p < E.wavenumbers.length)
        | none => true) then
      ps.filterMap (fun p? =>
        match p? with
        | some p =>
          let i := pyTrunc p
          if 0 ≤ i ∧ i < (E.wavenumbers.length : ℤ) then some (E.wavenumbers.getD i.toNat 0)
          else none
        | none => none)
    else ps.filterMap id


/-! Helper lemmas about folds, sorted lists, grids and moments. -/

theorem foldl_max_init_le (l : List ℚ) (b : ℚ) : b ≤ l.foldl max b := by
  induction l generalizing b with
  | nil => simp
  | cons x xs ih => exact le_trans (le_max_left b x) (ih (max b x))

theorem mem_le_foldl_max {x : ℚ} {l : List ℚ} (hx : x ∈ l) (b : ℚ) : x ≤ l.foldl max b := by
  induction l generalizing b with
  | nil => cases hx
  | cons y ys ih =>
    rcases List.mem_cons.mp hx with rfl | h
    · exact le_trans (le_max_right b x) (foldl_max_init_le ys _)
    · exact ih h _

theorem foldl_max_le {l : List ℚ} {b c : ℚ} (hb : b ≤ c) (h : ∀ x ∈ l, x ≤ c) :
    l.foldl max b ≤ c := by
  induction l generalizing b with
  | nil => simpa
  | cons y ys ih =>
    exact ih (max_le hb (h y (List.mem_cons_self y ys)))
      (fun x hx => h x (List.mem_cons_of_mem _ hx))

theorem foldl_min_init (l : List ℚ) (b : ℚ) : l.foldl min b ≤ b := by
  induction l generalizing b with
  | nil => simp
  | cons x xs ih => exact le_trans (ih (min b x)) (min_le_left b x)

theorem foldl_min_le_mem {x : ℚ} {l : List ℚ} (hx : x ∈ l) (b : ℚ) : l.foldl min b ≤ x := by
  induction l generalizing b with
  | nil => cases hx
  | cons y ys ih =>
    rcases List.mem_cons.mp hx with rfl | h
    · exact le_trans (foldl_min_init ys _) (min_le_right b x)
    · exact ih h _

theorem le_foldl_min {l : List ℚ} {b c : ℚ} (hb : c ≤ b) (h : ∀ x ∈ l, c ≤ x) :
    c ≤ l.foldl min b := by
  induction l generalizing b with
  | nil => simpa
  | cons y ys ih =>
    exact ih (le_min hb (h y (List.mem_cons_self y ys)))
      (fun x hx => h x (List.mem_cons_of_mem _ hx))

theorem le_listMax {x : ℚ} {l : List ℚ} (hx : x ∈ l) : x ≤ listMax l := by
  cases l with
  | nil => cases hx
  | cons y ys =>
    rcases List.mem_cons.mp hx with rfl | h
    · exact foldl_max_init_le ys x
    · exact mem_le_foldl_max h y

theorem listMin_le {x : ℚ} {l : List ℚ} (hx : x ∈ l) : listMin l ≤ x := by
  cases l with
  | nil => cases hx
  | cons y ys =>
    rcases List.mem_cons.mp hx with rfl | h
    · exact foldl_min_init ys x
    · exact foldl_min_le_mem h y

theorem getLastD_irrel (b : ℚ) (bs : List ℚ) (d d' : ℚ) :
    (b :: bs).getLastD d = (b :: bs).getLastD d' := by
  rw [List.getLastD_eq_getLast?, List.getLastD_eq_getLast?,
    List.getLast?_eq_getLast _ (List.cons_ne_nil b bs)]
  rfl

theorem chain_le_getLastD {a : ℚ} {l : List ℚ} (h : List.Chain' (· < ·) (a :: l)) :
    a ≤ (a :: l).getLastD 0 := by
  induction l generalizing a with
  | nil => simp
  | cons b bs ih =>
    have hab : a < b := (List.chain'_cons.mp h).1
    have hb := ih (List.chain'_cons.mp h).2
    calc a ≤ (b :: bs).getLastD 0 := le_of_lt (lt_of_lt_of_le hab hb)
    _ = (a :: b :: bs).getLastD 0 := by
        rw [List.getLastD_cons 0 a (b :: bs), getLastD_irrel b bs a 0]

theorem sorted_le_getLastD {l : List ℚ} (h : List.Chain' (· < ·) l) {x : ℚ} (hx : x ∈ l) :
    x ≤ l.getLastD 0 := by
  induction l with
  | nil => cases hx
  | cons a as ih =>
    rcases List.mem_cons.mp hx with rfl | hmem
    · exact chain_le_getLastD h
    · have hx' := ih h.tail hmem
      cases as with
      | nil => cases hmem
      | cons b bs =>
        rw [List.getLastD_cons 0 a (b :: bs), getLastD_irrel b bs a 0]
        exact hx'

theorem sorted_headD_le {l : List ℚ} (h : List.Chain' (· < ·) l) {x : ℚ} (hx : x ∈ l) :
    l.headD 0 ≤ x := by
  cases l with
  | nil => cases hx
  | cons a as =>
    rcases List.mem_cons.mp hx with rfl | hmem
    · simp
    · exact le_of_lt
        (List.rel_of_pairwise_cons (List.chain'_iff_pairwise.mp h) hmem)

theorem listMax_sorted {l : List ℚ} (h : List.Chain' (· < ·) l) (hne : l ≠ []) :
    listMax l = l.getLastD 0 := by
  cases l with
  | nil => exact absurd rfl hne
  | cons a as =>
    refine le_antisymm ?_ (le_listMax ?_)
    · exact foldl_max_le (sorted_le_getLastD h (List.mem_cons_self a as))
        (fun x hx => sorted_le_getLastD h (List.mem_cons_of_mem _ hx))
    · rw [List.getLastD_cons 0 a as]
      exact List.getLastD_mem_cons as a

theorem listMin_sorted {l : List ℚ} (h : List.Chain' (· < ·) l) (hne : l ≠ []) :
    listMin l = l.headD 0 := by
  cases l with
  | nil => exact absurd rfl hne
  | cons a as =>
    refine le_antisymm (listMin_le (List.mem_cons_self a as)) ?_
    exact le_foldl_min (le_refl a) (fun x hx => sorted_headD_le h (List.mem_cons_of_mem _ hx))

theorem linspace_mem_of_le {a b : ℚ} {n : ℕ} (hba : b ≤ a) {x : ℚ}
    (hx : x ∈ linspace a b n) : b ≤ x ∧ x ≤ a := by
  unfold linspace at hx
  rcases Nat.eq_zero_or_pos n with rfl | hn
  · simp at hx
  rcases eq_or_ne n 1 with rfl | hn1
  · simp at hx
    exact ⟨hx ▸ hba, le_of_eq hx⟩
  · rw [if_neg (Nat.pos_iff_ne_zero.mp hn), if_neg hn1] at hx
    obtain ⟨i, hi, rfl⟩ := List.mem_map.mp hx
    have hin : i < n := List.mem_range.mp hi
    have hn2 : 2 ≤ n := by omega
    have hm0 : (0 : ℚ) < (n : ℚ) - 1 := by
      have : (2 : ℚ) ≤ (n : ℚ) := by exact_mod_cast hn2
      linarith
    have hk0 : (0 : ℚ) ≤ (i : ℚ) := Nat.cast_nonneg i
    have hkm : (i : ℚ) ≤ (n : ℚ) - 1 := by
      have : (i : ℚ) + 1 ≤ (n : ℚ) := by exact_mod_cast hin
      linarith
    constructor
    · have h1 : (b - a) * ((n : ℚ) - 1) ≤ (b - a) * i :=
        mul_le_mul_of_nonpos_left hkm (sub_nonpos.mpr hba)
      have h2 : b - a ≤ (b - a) * i / ((n : ℚ) - 1) := by
        rw [le_div_iff₀ hm0]
        exact h1
      linarith
    · have h1 : (b - a) * i ≤ 0 :=
        mul_nonpos_of_nonpos_of_nonneg (sub_nonpos.mpr hba) hk0
      have h2 : (b - a) * i / ((n : ℚ) - 1) ≤ 0 :=
        div_nonpos_of_nonpos_of_nonneg h1 (le_of_lt hm0)
      linarith

theorem popVar_const {l : List ℚ} {c : ℚ} (h : ∀ x ∈ l, x = c) : popVar l = 0 := by
  rcases eq_or_ne l [] with rfl | hne
  · simp [popVar, qmean]
  · have hlen : (l.length : ℚ) ≠ 0 := by
      exact_mod_cast fun h0 => hne (List.length_eq_zero.mp h0)
    have hm : qmean l = c := by
      unfold qmean
      rw [List.sum_eq_card_nsmul l c h, nsmul_eq_mul, mul_comm, mul_div_assoc,
        div_self hlen, mul_one]
    unfold popVar
    have hz : l.map (fun x => (x - qmean l) ^ 2) = l.map (fun _ => 0) := by
      apply List.map_congr_left
      intro x hx
      rw [hm, h x hx]
      ring
    rw [hz]
    simp

theorem listMin_lt_listMax_of_popVar {l : List ℚ} (h : popVar l ≠ 0) :
    listMin l < listMax l := by
  by_contra hlt
  push_neg at hlt
  exact h (popVar_const (c := listMin l)
    (fun x hx => le_antisymm (le_trans (le_listMax hx) hlt) (listMin_le hx)))

theorem clip01_nonneg (x : ℝ) : 0 ≤ clip01 x := le_max_left 0 _

theorem clip01_le_one (x : ℝ) : clip01 x ≤ 1 :=
  max_le (by norm_num) (min_le_left 1 x)

theorem clip01_eq_self {x : ℝ} (h0 : 0 ≤ x) (h1 : x ≤ 1) : clip01 x = x := by
  unfold clip01
  rw [min_eq_right h1, max_eq_right h0]

theorem clipQ_nonneg (x : ℚ) : 0 ≤ clipQ x := le_max_left 0 _

theorem clipQ_le_one (x : ℚ) : clipQ x ≤ 1 :=
  max_le (by norm_num) (min_le_left 1 x)

theorem npInterp_right_clamp (xs : List ℚ) :
    ∀ (ys : List ℚ) (x : ℚ), List.Chain' (· < ·) xs → xs.length = ys.length →
      xs ≠ [] → xs.getLastD 0 ≤ x → npInterp xs ys x = ys.getLastD 0 := by
  induction xs with
  | nil => intro ys x _ _ hne _; exact absurd rfl hne
  | cons x0 xs ih =>
    intro ys x hch hlen hne hx
    cases xs with
    | nil =>
      cases ys with
      | nil => simp at hlen
      | cons y0 ys' =>
        cases ys' with
        | nil => simp [npInterp]
        | cons y1 ys'' => simp at hlen
    | cons x1 xs' =>
      cases ys with
      | nil => simp at hlen
      | cons y0 ys' =>
        cases ys' with
        | nil => simp at hlen
        | cons y1 ys'' =>
          have h01 : x0 < x1 := (List.chain'_cons.mp hch).1
          have hch1 : List.Chain' (· < ·) (x1 :: xs') := (List.chain'_cons.mp hch).2
          have hlast0 : (x0 :: x1 :: xs').getLastD 0 = (x1 :: xs').getLastD 0 := by
            rw [List.getLastD_cons 0 x0 (x1 :: xs'), getLastD_irrel x1 xs' x0 0]
          have hx1 : x1 ≤ x := by
            have := chain_le_getLastD hch1
            rw [hlast0] at hx
            linarith
          cases xs' with
          | nil =>
            cases ys'' with
            | nil =>
              have hxlast : x1 ≤ x := by
                rw [hlast0] at hx
                simpa using hx
              simp only [npInterp]
              rw [if_neg (not_le.mpr (lt_of_lt_of_le h01 hxlast))]
              by_cases h2 : x ≤ x1
              · rw [if_pos h2]
                have hxx : x = x1 := le_antisymm h2 hxlast
                subst hxx
                rw [mul_div_assoc, div_self (sub_ne_zero.mpr (ne_of_gt h01)), mul_one]
                simp
              · rw [if_neg h2]
                simp [npInterp]
            | cons w ws => simp at hlen
          | cons z zs =>
            have hz : x1 < (x1 :: z :: zs).getLastD 0 := by
              have h1z : x1 < z := (List.chain'_cons.mp hch1).1
              have := chain_le_getLastD (List.chain'_cons.mp hch1).2
              calc x1 < z := h1z
              _ ≤ (z :: zs).getLastD 0 := this
              _ = (x1 :: z :: zs).getLastD 0 := by
                  rw [List.getLastD_cons 0 x1 (z :: zs), getLastD_irrel z zs x1 0]
            have hx1s : x1 < x := by
              rw [hlast0] at hx
              linarith
            simp only [npInterp]
            rw [if_neg (not_le.mpr (lt_trans h01 hx1s)), if_neg (not_le.mpr hx1s)]
            have := ih (y1 :: ys'') x hch1 (by simpa using hlen) (List.cons_ne_nil _ _)
              (by rw [hlast0] at hx; exact hx)
            rw [this, List.getLastD_cons 0 y0 (y1 :: ys''), getLastD_irrel y1 ys'' y0 0]

theorem npInterp_left_clamp (xs ys : List ℚ) (x : ℚ) (hlen : xs.length = ys.length)
    (hne : xs ≠ []) (hx : x ≤ xs.headD 0) : npInterp xs ys x = ys.headD 0 := by
  cases xs with
  | nil => exact absurd rfl hne
  | cons x0 xs' =>
    cases ys with
    | nil => simp at hlen
    | cons y0 ys' =>
      cases xs' with
      | nil => simp [npInterp]
      | cons x1 xs'' =>
        cases ys' with
        | nil => simp at hlen
        | cons y1 ys'' =>
          simp only [npInterp]
          rw [if_pos (by simpa using hx)]
          simp

theorem corr_var_zero_of_degenerate (st : QueryState) (dw di : List ℚ)
    (hq : List.Chain' (· < ·) st.current_wavenumbers)
    (hd : List.Chain' (· < ·) dw)
    (hql : st.current_wavenumbers.length = st.processed_intensities.length)
    (hdl : dw.length = di.length)
    (hqne : st.current_wavenumbers ≠ []) (hdne : dw ≠ [])
    (hdeg : min (listMax st.current_wavenumbers) (listMax dw) ≤
      max (listMin st.current_wavenumbers) (listMin dw)) :
    popVar (corrQueryInterp st dw) = 0 ∨ popVar (corrDbInterp st dw di) = 0 := by
  set qw := st.current_wavenumbers with hqw
  set lo := max (listMin qw) (listMin dw) with hlo
  set hi := min (listMax qw) (listMax dw) with hhi
  rcases min_cases (listMax qw) (listMax dw) with ⟨hmin, _⟩ | ⟨hmin, _⟩
  · left
    apply popVar_const (c := st.processed_intensities.getLastD 0)
    intro y hy
    obtain ⟨g, hg, rfl⟩ := List.mem_map.mp hy
    have hb := linspace_mem_of_le (a := lo) (b := hi) hdeg hg
    apply npInterp_right_clamp qw _ g hq hql hqne
    rw [← listMax_sorted hq hqne, ← hmin]
    exact hb.1
  · right
    apply popVar_const (c := di.getLastD 0)
    intro y hy
    obtain ⟨g, hg, rfl⟩ := List.mem_map.mp hy
    have hb := linspace_mem_of_le (a := lo) (b := hi) hdeg hg
    apply npInterp_right_clamp dw _ g hd hdl hdne
    rw [← listMax_sorted hd hdne, ← hmin]
    exact hb.1

theorem corr_score_branches (st : QueryState) (dw di : List ℚ)
    (hqne : st.current_wavenumbers ≠ []) (hdne : dw ≠ [])
    (hql : st.current_wavenumbers.length = st.processed_intensities.length)
    (hdl : dw.length = di.length) :
    calculate_correlation_score st dw di =
      if popVar (corrQueryInterp st dw) = 0 ∨ popVar (corrDbInterp st dw di) = 0 then .zero
      else .pearson (corrQueryInterp st dw) (corrDbInterp st dw di) := by
  unfold calculate_correlation_score
  have h1 : ¬(dw.length = 0 ∨ di.length = 0) := by
    push_neg
    constructor
    · simpa [List.length_eq_zero] using hdne
    · rw [← hdl]
      simpa [List.length_eq_zero] using hdne
  rw [if_neg h1, if_neg (by simpa using hqne), if_neg (not_not_intro hql),
    if_neg (not_not_intro hdl)]

theorem corrVal_nonneg (c : CorrOut) : 0 ≤ c.val := by
  cases c with
  | zero => exact le_refl 0
  | pearson qI dI => exact clip01_nonneg _

theorem corrVal_le_one (c : CorrOut) : c.val ≤ 1 := by
  cases c with
  | zero => norm_num [CorrOut.val]
  | pearson qI dI => exact clip01_le_one _

theorem dtwVal_nonneg (d : DtwOut) : 0 ≤ d.val := by
  cases d with
  | zero => exact le_refl 0
  | expScore s => exact clip01_nonneg _
  | fromCorr c => exact corrVal_nonneg c

theorem dtwVal_le_one (d : DtwOut) : d.val ≤ 1 := by
  cases d with
  | zero => norm_num [DtwOut.val]
  | expScore s => exact clip01_le_one _
  | fromCorr c => exact corrVal_le_one c

/-- C1: for every query and candidate spectrum, the correlation score is 0.0
when the intersection of the wavenumber ranges is empty or has zero width,
0.0 when either interpolated series has zero variance, and otherwise the
absolute value of the Pearson correlation of the two series resampled by
linear interpolation onto the common grid over the intersection, clipped
into `[0, 1]`. -/
theorem C1_correlation_score (st : QueryState) (dw di : List ℚ)
    (hq : List.Chain' (· < ·) st.current_wavenumbers)
    (hd : List.Chain' (· < ·) dw)
    (hql : st.current_wavenumbers.length = st.processed_intensities.length)
    (hdl : dw.length = di.length)
    (hqne : st.current_wavenumbers ≠ []) (hdne : dw ≠ []) :
    (min (listMax st.current_wavenumbers) (listMax dw) ≤
        max (listMin st.current_wavenumbers) (listMin dw) →
      calculate_correlation_score st dw di = .zero) ∧
    (popVar (corrQueryInterp st dw) = 0 ∨ popVar (corrDbInterp st dw di) = 0 →
      calculate_correlation_score st dw di = .zero) ∧
    (¬(popVar (corrQueryInterp st dw) = 0 ∨ popVar (corrDbInterp st dw di) = 0) →
      calculate_correlation_score st dw di =
        .pearson (corrQueryInterp st dw) (corrDbInterp st dw di) ∧
      (calculate_correlation_score st dw di).val =
        clip01 |(covP (corrQueryInterp st dw) (corrDbInterp st dw di) : ℝ) /
          (Real.sqrt (popVar (corrQueryInterp st dw)) *
            Real.sqrt (popVar (corrDbInterp st dw di)))|) := by
  have hbr := corr_score_branches st dw di hqne hdne hql hdl
  refine ⟨fun hdeg => ?_, fun hv => ?_, fun hv => ?_⟩
  · rw [hbr, if_pos (corr_var_zero_of_degenerate st dw di hq hd hql hdl hqne hdne hdeg)]
  · rw [hbr, if_pos hv]
  · rw [hbr, if_neg hv]
    exact ⟨rfl, rfl⟩

/-- Witness for C1 at a concrete input: disjoint wavenumber ranges give
score zero. -/
theorem C1_correlation_score_witness :
    calculate_correlation_score ⟨[0, 1], [1, 2], none⟩ [5, 6] [1, 2] = .zero :=
  (C1_correlation_score ⟨[0, 1], [1, 2], none⟩ [5, 6] [1, 2]
    (by norm_num [List.chain'_cons]) (by norm_num [List.chain'_cons])
    (by norm_num) (by norm_num) (by simp) (by simp)).1
    (by norm_num [listMax, listMin])

theorem dtw_score_branches (f : DtwFun) (st : QueryState) (dw di : List ℚ)
    (hqne : st.current_wavenumbers ≠ []) (hdne : dw ≠ [])
    (hql : st.current_wavenumbers.length = st.processed_intensities.length)
    (hdl : dw.length = di.length) :
    calculate_dtw_score (some f) st dw di =
      if min (listMax st.current_wavenumbers) (listMax dw) -
          max (listMin st.current_wavenumbers) (listMin dw) <
          3 / 10 * min (listMax st.current_wavenumbers - listMin st.current_wavenumbers)
            (listMax dw - listMin dw) then .zero
      else if popVar (dtwQueryInterp st dw) = 0 ∨ popVar (dtwDbInterp st dw di) = 0 then
        .zero
      else if 0 < (f (minmaxNorm (dtwQueryInterp st dw))
          (minmaxNorm (dtwDbInterp st dw di))).2 then
        .expScore ((f (minmaxNorm (dtwQueryInterp st dw))
            (minmaxNorm (dtwDbInterp st dw di))).1 /
          ((f (minmaxNorm (dtwQueryInterp st dw))
            (minmaxNorm (dtwDbInterp st dw di))).2 : ℚ) * 2)
      else .zero := by
  simp only [calculate_dtw_score]
  have h1 : ¬(dw.length = 0 ∨ di.length = 0) := by
    push_neg
    constructor
    · simpa [List.length_eq_zero] using hdne
    · rw [← hdl]
      simpa [List.length_eq_zero] using hdne
  rw [if_neg h1, if_neg (by simpa using hqne)]
  have h2 : ¬(st.current_wavenumbers.length ≠ st.processed_intensities.length ∨
      dw.length ≠ di.length) := by
    push_neg
    exact ⟨hql, hdl⟩
  split
  · rfl
  · rfl

/-- C4 counterexample: with full overlap (so the 30% requirement holds) but a
constant candidate spectrum, the code returns the literal `0.0` from its
zero-variance branch, whereas the claim's formula `exp(-2 * cost/pathLen)`
(here `cost = 0`, `pathLen = 1`, so `exp 0 = 1`) is never `0.0`.  The claim
as stated is therefore false at this input. -/
theorem C4_counterexample :
    calculate_dtw_score (some (fun _ _ => (0, 1))) ⟨[0, 1], [0, 1], none⟩ [0, 1] [5, 5] =
      .zero ∧
    ¬(min (listMax ([0, 1] : List ℚ)) (listMax ([0, 1] : List ℚ)) -
        max (listMin ([0, 1] : List ℚ)) (listMin ([0, 1] : List ℚ)) <
        3 / 10 * min (listMax ([0, 1] : List ℚ) - listMin ([0, 1] : List ℚ))
          (listMax ([0, 1] : List ℚ) - listMin ([0, 1] : List ℚ))) ∧
    DtwOut.val (.expScore (0 / ((1 : ℕ) : ℚ) * 2)) = 1 := by
  refine ⟨?_, ?_, ?_⟩
  · norm_num [calculate_dtw_score, dtwQueryInterp, dtwDbInterp, dtwGrid, linspace, npInterp,
      listMin, listMax, popVar, qmean, minmaxNorm, List.range_succ]
  · norm_num [listMin, listMax]
  · norm_num [DtwOut.val, clip01, Real.exp_zero]

/-- C4 (amended): the DTW score is 0.0 when the overlap is smaller than 30%
of the smaller spectrum's total range, 0.0 when either resampled series has
zero variance or the warping path is empty, and otherwise
`exp(-2 * cost/pathLength)` (on the two series resampled to at most 200
points over the overlap and min-max normalised), clipped into `[0, 1]`. -/
theorem C4_dtw_score (f : DtwFun) (st : QueryState) (dw di : List ℚ)
    (hqne : st.current_wavenumbers ≠ []) (hdne : dw ≠ [])
    (hql : st.current_wavenumbers.length = st.processed_intensities.length)
    (hdl : dw.length = di.length) :
    (min (listMax st.current_wavenumbers) (listMax dw) -
        max (listMin st.current_wavenumbers) (listMin dw) <
        3 / 10 * min (listMax st.current_wavenumbers - listMin st.current_wavenumbers)
          (listMax dw - listMin dw) →
      calculate_dtw_score (some f) st dw di = .zero) ∧
    (¬(min (listMax st.current_wavenumbers) (listMax dw) -
        max (listMin st.current_wavenumbers) (listMin dw) <
        3 / 10 * min (listMax st.current_wavenumbers - listMin st.current_wavenumbers)
          (listMax dw - listMin dw)) →
      (popVar (dtwQueryInterp st dw) = 0 ∨ popVar (dtwDbInterp st dw di) = 0 →
        calculate_dtw_score (some f) st dw di = .zero) ∧
      (¬(popVar (dtwQueryInterp st dw) = 0 ∨ popVar (dtwDbInterp st dw di) = 0) →
        (dtwPathLen f st dw di = 0 →
          calculate_dtw_score (some f) st dw di = .zero) ∧
        (0 < dtwPathLen f st dw di →
          calculate_dtw_score (some f) st dw di = .expScore (dtwScaled f st dw di) ∧
          (calculate_dtw_score (some f) st dw di).val =
            clip01 (Real.exp (-((dtwScaled f st dw di : ℚ) : ℝ)))))) := by
  have hbr := dtw_score_branches f st dw di hqne hdne hql hdl
  refine ⟨fun h => by rw [hbr, if_pos h], fun h1 => ⟨fun h2 => by rw [hbr, if_neg h1, if_pos h2],
    fun h2 => ⟨fun h3 => ?_, fun h3 => ?_⟩⟩⟩
  · have h3' : (f (minmaxNorm (dtwQueryInterp st dw)) (minmaxNorm (dtwDbInterp st dw di))).2
        = 0 := h3
    rw [hbr, if_neg h1, if_neg h2, if_neg (by rw [h3']; exact lt_irrefl 0)]
  · have h3' : 0 < (f (minmaxNorm (dtwQueryInterp st dw))
        (minmaxNorm (dtwDbInterp st dw di))).2 := h3
    rw [hbr, if_neg h1, if_neg h2, if_pos h3']
    exact ⟨rfl, rfl⟩

/-- Witness for C4 at a concrete input: full overlap, nonconstant series and
a DTW result of cost 0 with path length 1 give `expScore 0`. -/
theorem C4_dtw_score_witness :
    calculate_dtw_score (some (fun _ _ => (0, 1))) ⟨[0, 1], [0, 1], none⟩ [0, 1] [0, 2] =
      .expScore (dtwScaled (fun _ _ => (0, 1)) ⟨[0, 1], [0, 1], none⟩ [0, 1] [0, 2]) :=
  (((C4_dtw_score (fun _ _ => (0, 1)) ⟨[0, 1], [0, 1], none⟩ [0, 1] [0, 2]
    (by simp) (by simp) (by norm_num) (by norm_num)).2
    (by norm_num [listMin, listMax])).2
    (by norm_num [dtwQueryInterp, dtwDbInterp, dtwGrid, linspace, npInterp, listMin, listMax,
      popVar, qmean, List.range_succ])).2 (by norm_num [dtwPathLen]) |>.1

theorem clipQ_bounds (x : ℚ) : 0 ≤ clipQ x ∧ clipQ x ≤ 1 :=
  ⟨clipQ_nonneg x, clipQ_le_one x⟩

theorem ite_zero_bounds {c : Prop} [Decidable c] {x : ℚ} (hx : 0 ≤ x ∧ x ≤ 1) :
    0 ≤ (if c then (0 : ℚ) else x) ∧ (if c then (0 : ℚ) else x) ≤ 1 := by
  split
  · norm_num
  · exact hx

theorem calculate_peak_score_bounds (fp : FindPeaksFun) (st : QueryState) (dw di : List ℚ) :
    0 ≤ calculate_peak_score fp st dw di ∧ calculate_peak_score fp st dw di ≤ 1 := by
  unfold calculate_peak_score
  cases st.detected_peaks with
  | none => norm_num
  | some dp =>
    exact ite_zero_bounds (ite_zero_bounds (ite_zero_bounds (ite_zero_bounds
      (ite_zero_bounds (ite_zero_bounds (clipQ_bounds _))))))

/-- C7: when the DTW implementation is unavailable (`fastdtw` import fails),
the DTW score operation returns exactly the correlation score for the same
inputs, and the combined score `0.3 * correlation + 0.7 * DTW` collapses to
the correlation score as well. -/
theorem C7_dtw_fallback (st : QueryState) (dw di : List ℚ) :
    calculate_dtw_score none st dw di =
      .fromCorr (calculate_correlation_score st dw di) ∧
    (calculate_dtw_score none st dw di).val = (calculate_correlation_score st dw di).val ∧
    (calculate_combined_score none st dw di).val =
      (calculate_correlation_score st dw di).val := by
  refine ⟨rfl, rfl, ?_⟩
  show clip01 (3 / 10 * (calculate_correlation_score st dw di).val +
    7 / 10 * (calculate_dtw_score none st dw di).val) = _
  have hv : (calculate_dtw_score none st dw di).val =
      (calculate_correlation_score st dw di).val := rfl
  rw [hv]
  have hc : 3 / 10 * (calculate_correlation_score st dw di).val +
      7 / 10 * (calculate_correlation_score st dw di).val =
      (calculate_correlation_score st dw di).val := by ring
  rw [hc]
  exact clip01_eq_self (corrVal_nonneg _) (corrVal_le_one _)

/-- C8: each of the four scoring operations is total on arbitrary inputs and
its result lies in `[0, 1]`; all exception paths inside the Python functions
are caught and appear as explicit zero branches of the embeddings, so no
input makes a scorer diverge or leave the unit interval. -/
theorem C8_scores_in_unit_interval (impl : Option DtwFun) (fp : FindPeaksFun)
    (st : QueryState) (dw di : List ℚ) :
    (0 ≤ (calculate_correlation_score st dw di).val ∧
      (calculate_correlation_score st dw di).val ≤ 1) ∧
    (0 ≤ (calculate_dtw_score impl st dw di).val ∧
      (calculate_dtw_score impl st dw di).val ≤ 1) ∧
    (0 ≤ calculate_peak_score fp st dw di ∧ calculate_peak_score fp st dw di ≤ 1) ∧
    (0 ≤ (calculate_combined_score impl st dw di).val ∧
      (calculate_combined_score impl st dw di).val ≤ 1) :=
  ⟨⟨corrVal_nonneg _, corrVal_le_one _⟩, ⟨dtwVal_nonneg _, dtwVal_le_one _⟩,
    calculate_peak_score_bounds fp st dw di,
    ⟨clip01_nonneg _, clip01_le_one _⟩⟩

theorem nameLe_trans : ∀ (a b c : SearchMatch), (decide (a.name ≤ b.name)) = true →
    (decide (b.name ≤ c.name)) = true → (decide (a.name ≤ c.name)) = true := by
  intro a b c h1 h2
  rw [decide_eq_true_eq] at h1 h2 ⊢
  exact le_trans h1 h2

theorem nameLe_total : ∀ (a b : SearchMatch),
    ((decide (a.name ≤ b.name)) || (decide (b.name ≤ a.name))) = true := by
  intro a b
  rw [Bool.or_eq_true, decide_eq_true_eq, decide_eq_true_eq]
  exact le_total a.name b.name

/-- C2: when `peak_positions` is the only filter set (present and nonempty,
all other filters absent), the advanced search is a peak-only search: it
returns, for any choice of similarity scorer, exactly the entries passing
the peak filter, each with the fixed score `1.0`, sorted by entry name and
truncated to the requested count. -/
theorem C2_peak_only_search (scorer : String → Entry → ℚ) (db : List (String × Entry))
    (F : Filters) (n : ℕ) (threshold : ℚ) (ps : List ℚ)
    (hps : F.peak_positions = some ps) (hne : ps ≠ [])
    (hcf : F.chemical_family = none) (hhc : F.hey_classification = none)
    (hoe : F.only_elements = none) (hre : F.required_elements = none)
    (hee : F.exclude_elements = none) :
    perform_advanced_search scorer db F n threshold =
      (((apply_metadata_filters db F).map (fun kv =>
          (⟨kv.1, 1, kv.2.metadata, kv.2.peaks, kv.2.timestamp⟩ : SearchMatch))).mergeSort
        (fun a b => decide (a.name ≤ b.name))).take n ∧
    (∀ m ∈ perform_advanced_search scorer db F n threshold, m.score = 1) ∧
    (perform_advanced_search scorer db F n threshold).Pairwise
      (fun a b => a.name ≤ b.name) ∧
    (∀ m ∈ perform_advanced_search scorer db F n threshold,
      ∃ E : Entry, (m.name, E) ∈ db ∧ spectrum_passes_filters F E = true ∧
        m = ⟨m.name, 1, E.metadata, E.peaks, E.timestamp⟩) ∧
    (∀ E : Entry, spectrum_passes_filters F E =
      passes_peak_filter E ps (F.peak_tolerance.getD 10)) := by
  have hchar : perform_advanced_search scorer db F n threshold =
      (((apply_metadata_filters db F).map (fun kv =>
          (⟨kv.1, 1, kv.2.metadata, kv.2.peaks, kv.2.timestamp⟩ : SearchMatch))).mergeSort
        (fun a b => decide (a.name ≤ b.name))).take n := by
    unfold perform_advanced_search
    rw [hps]
    rcases eq_or_ne (apply_metadata_filters db F) [] with hc | hc
    · rw [hc]
      simp
    · rw [if_neg hc, if_pos (by simpa using hne)]
  refine ⟨hchar, ?_, ?_, ?_, ?_⟩
  · intro m hm
    rw [hchar] at hm
    have hm2 := (List.mergeSort_perm _ _).mem_iff.mp (List.take_subset n _ hm)
    obtain ⟨kv, _, rfl⟩ := List.mem_map.mp hm2
    rfl
  · rw [hchar]
    have hs := List.sorted_mergeSort nameLe_trans nameLe_total
      ((apply_metadata_filters db F).map (fun kv =>
        (⟨kv.1, 1, kv.2.metadata, kv.2.peaks, kv.2.timestamp⟩ : SearchMatch)))
    exact ((hs.sublist (List.take_sublist n _)).imp (fun h => decide_eq_true_eq.mp h))
  · intro m hm
    rw [hchar] at hm
    have hm2 := (List.mergeSort_perm _ _).mem_iff.mp (List.take_subset n _ hm)
    obtain ⟨kv, hkv, rfl⟩ := List.mem_map.mp hm2
    have hkv2 := List.mem_filter.mp hkv
    exact ⟨kv.2, hkv2.1, hkv2.2, rfl⟩
  · intro E
    unfold spectrum_passes_filters checkFamily checkHey checkElements
    rw [hps, hcf, hhc, hoe, hre, hee]
    simp

/-- Witness for C2 at a concrete database and peak-only filter set. -/
theorem C2_peak_only_search_witness :
    perform_advanced_search (fun _ _ => 0)
      [("b", { peaks := .dictPeaks (some [101]) }), ("a", { peaks := .dictPeaks (some [200]) })]
      { peak_positions := some [100], peak_tolerance := some 5 } 5 0 =
      (((apply_metadata_filters
          [("b", { peaks := .dictPeaks (some [101]) }),
            ("a", { peaks := .dictPeaks (some [200]) })]
          { peak_positions := some [100], peak_tolerance := some 5 }).map (fun kv =>
          (⟨kv.1, 1, kv.2.metadata, kv.2.peaks, kv.2.timestamp⟩ : SearchMatch))).mergeSort
        (fun a b => decide (a.name ≤ b.name))).take 5 :=
  (C2_peak_only_search (fun _ _ => 0) _ _ 5 0 [100] rfl (by simp) rfl rfl rfl rfl rfl).1

/-- C3 counterexample: this entry's peaks list `[40, 60]` is not index-like
(60 is out of range of the two-element wavenumber array), so the code reads
it as direct wavenumber values and silently drops the peak at 40 through its
`> 50` sanity cutoff.  The single required peak 40 (tolerance 5) lies within
tolerance of the stored peak 40 — the claim says the entry passes — yet the
filter rejects the entry, and its peak data is plainly usable (nonempty). -/
theorem C3_counterexample :
    passes_peak_filter
      { wavenumbers := [100, 200], peaks := .listPeaks [some 40, some 60] } [40] 5 = false ∧
    spectrum_passes_filters { peak_positions := some [40], peak_tolerance := some 5 }
      { wavenumbers := [100, 200], peaks := .listPeaks [some 40, some 60] } = false ∧
    claimedEntryPeaks
      { wavenumbers := [100, 200], peaks := .listPeaks [some 40, some 60] } = [40, 60] ∧
    (40 : ℚ) ∈ claimedEntryPeaks
      { wavenumbers := [100, 200], peaks := .listPeaks [some 40, some 60] } ∧
    |(40 : ℚ) - 40| ≤ 5 := by
  refine ⟨?_, ?_, ?_, ?_, by norm_num⟩
  · norm_num [passes_peak_filter, valid_spectrum_peaks, pyTrunc, List.filterMap]
    simp
    norm_num
  · norm_num [spectrum_passes_filters, passes_peak_filter, valid_spectrum_peaks, pyTrunc,
      List.filterMap]
    try simp
    try norm_num
  · norm_num [claimedEntryPeaks, pyTrunc]
    rfl
  · norm_num [claimedEntryPeaks, pyTrunc, List.filterMap]

/-- C3 (amended): an entry passes the peak filter iff every required
wavenumber is within tolerance of some peak of the entry's usable peak data,
where the usable peaks are the code's extraction: a dict's wavenumber array
as given; a list classified as legacy indices (entry has wavenumbers, every
numeric element in range) converted through the entry's own wavenumber array
with `None` entries skipped; any other nonempty list read as direct
wavenumber values above the 50 cm⁻¹ sanity cutoff.  An entry with no usable
peak data always fails, and a classified index list is converted — never
rejected — with every converted peak drawn from the entry's wavenumber
array. -/
theorem C3_peak_filter (E : Entry) (req : List ℚ) (t : ℚ) :
    (∀ v, valid_spectrum_peaks E = some v →
      (passes_peak_filter E req t = true ↔ ∀ r ∈ req, ∃ p ∈ v, |p - r| ≤ t)) ∧
    (valid_spectrum_peaks E = none → passes_peak_filter E req t = false) ∧
    (∀ ps, E.peaks = .listPeaks ps → ps ≠ [] → E.wavenumbers ≠ [] →
      (∀ p? ∈ ps, ∀ p : ℚ, p? = some p → 0 ≤ p ∧ p < (E.wavenumbers.length : ℚ)) →
      ∃ v, valid_spectrum_peaks E = some v ∧ ∀ q ∈ v, q ∈ E.wavenumbers) ∧
    (∀ F : Filters, F.peak_positions = some req → F.peak_tolerance = some t →
      F.chemical_family = none → F.hey_classification = none →
      F.only_elements = none → F.required_elements = none → F.exclude_elements = none →
      spectrum_passes_filters F E = passes_peak_filter E req t) := by
  refine ⟨fun v hv => ?_, fun hv => ?_, fun ps hpk hps hw hall => ?_, ?_⟩
  · unfold passes_peak_filter
    rw [hv]
    simp [List.all_eq_true, List.any_eq_true]
  · unfold passes_peak_filter
    rw [hv]
  · simp only [valid_spectrum_peaks, hpk]
    rw [if_neg hps, if_pos]
    · refine ⟨_, rfl, ?_⟩
      intro q hq
      obtain ⟨p?, hp?, hconv⟩ := List.mem_filterMap.mp hq
      match p? with
      | none => exact absurd hconv (by simp)
      | some p =>
        simp only at hconv
        split at hconv
        · rename_i hrange
          have hlt : (pyTrunc p).toNat < E.wavenumbers.length := by omega
          rw [Option.some_inj] at hconv
          rw [← hconv, List.getD_eq_getElem _ _ hlt]
          exact List.getElem_mem hlt
        · exact absurd hconv (by simp)
    · constructor
      · exact hw
      · rw [List.all_eq_true]
        intro p? hp?
        match p? with
        | none => rfl
        | some p =>
          simp only [decide_eq_true_eq]
          exact hall (some p) hp? p rfl
  · intro F h1 h2 h3 h4 h5 h6 h7
    unfold spectrum_passes_filters checkFamily checkHey checkElements
    rw [h1, h2, h3, h4, h5, h6, h7]
    simp

/-- Witness for C3 at a concrete entry with original-app dict peak data. -/
theorem C3_peak_filter_witness :
    passes_peak_filter { peaks := PeaksData.dictPeaks (some [101]) } [100] 5 = true :=
  ((C3_peak_filter { peaks := PeaksData.dictPeaks (some [101]) } [100] 5).1 [101] rfl).mpr
    (by
      intro r hr
      simp at hr
      subst hr
      exact ⟨101, by simp, by norm_num⟩)

theorem fuzzyStep_inv {α : Type} (ratio : RatioFun) (cleaned : List Char) (threshold : ℚ)
    (l : List (List Char × α)) :
    ∀ (acc : Option (List Char × α × ℚ)),
      (∀ k m s, acc = some (k, m, s) →
        s = ratio cleaned (toLowerL k) ∧ threshold ≤ s) →
      ∀ k m s, l.foldl (fuzzyStep ratio cleaned threshold) acc = some (k, m, s) →
        s = ratio cleaned (toLowerL k) ∧ threshold ≤ s := by
  induction l with
  | nil => intro acc hacc k m s h; exact hacc k m s h
  | cons kv l ih =>
    intro acc hacc k m s h
    refine ih (fuzzyStep ratio cleaned threshold acc kv) ?_ k m s h
    intro k' m' s' hs
    simp only [fuzzyStep] at hs
    split at hs
    · rename_i hcond
      simp only [Option.some_inj, Prod.mk.injEq] at hs
      obtain ⟨h1, h2, h3⟩ := hs
      subst h1
      subst h3
      exact ⟨rfl, hcond.2⟩
    · exact hacc k' m' s' hs

theorem fuzzyBest_threshold {α : Type} (ratio : RatioFun) (hey : List (List Char × α))
    (cleaned : List Char) (threshold : ℚ) (k : List Char) (m : α)
    (h : fuzzyBest ratio hey cleaned threshold = some (k, m)) :
    threshold ≤ ratio cleaned (toLowerL k) := by
  unfold fuzzyBest at h
  split at h
  · rename_i k' m' s hfold
    split at h
    · exact absurd h (by simp)
    · simp only [Option.some_inj, Prod.mk.injEq] at h
      obtain ⟨h1, h2⟩ := h
      subst h1
      have hinv := fuzzyStep_inv ratio cleaned threshold hey none
        (by intro _ _ _ hx; cases hx) k' m' s hfold
      rw [← hinv.1]
      exact hinv.2
  · exact absurd h (by simp)

/-- C5 counterexample: the resolver returns before its exact-match stage
whenever the cleaned name is empty, even though an exact key match exists.
For the name `"@@"` (which cleans to the empty string, since `@` is not
alphanumeric) against a taxonomy containing the exact key `"@@"`, the
exact-match stage would succeed, but the code returns `(None, None)`. -/
theorem C5_counterexample :
    match_mineral_name (fun _ _ => 0) [("@@".toList, 0)] "@@".toList (8 / 10) = none ∧
    ([("@@".toList, (0 : ℕ))].lookup "@@".toList).isSome = true := by
  constructor
  · rfl
  · rfl

/-- C5 (amended): for a nonempty name over a nonempty taxonomy whose cleaned
form is nonempty (names cleaning to the empty string are rejected upfront
with `(None, None)`, even when an exact key exists), the lookup stages run in
fixed precedence order — exact key, cleaned key, substring containment in a
lowercased key, fuzzy matching — and the first success determines the
result; a fuzzy candidate is accepted only with similarity ratio at least
the threshold, all stages failing yields `(None, None)`, and `"Quartz-type"`
and `"quartz"` clean to the same lookup key. -/
theorem C5_match_mineral_name {α : Type} (ratio : RatioFun) (hey : List (List Char × α))
    (name : List Char) (threshold : ℚ)
    (hname : name ≠ []) (hhey : hey ≠ [])
    (hclean : clean_mineral_name name ≠ []) :
    (∀ m, hey.lookup name = some m →
      match_mineral_name ratio hey name threshold = some (name, m)) ∧
    (hey.lookup name = none → ∀ m, hey.lookup (clean_mineral_name name) = some m →
      match_mineral_name ratio hey name threshold = some (clean_mineral_name name, m)) ∧
    (hey.lookup name = none → hey.lookup (clean_mineral_name name) = none →
      ∀ kv, hey.find? (fun kv => substrOf (clean_mineral_name name) (toLowerL kv.1)) =
          some kv →
        match_mineral_name ratio hey name threshold = some (kv.1, kv.2)) ∧
    (hey.lookup name = none → hey.lookup (clean_mineral_name name) = none →
      hey.find? (fun kv => substrOf (clean_mineral_name name) (toLowerL kv.1)) = none →
      match_mineral_name ratio hey name threshold =
        fuzzyBest ratio hey (clean_mineral_name name) threshold) ∧
    (∀ k m, fuzzyBest ratio hey (clean_mineral_name name) threshold = some (k, m) →
      threshold ≤ ratio (clean_mineral_name name) (toLowerL k)) ∧
    clean_mineral_name "Quartz-type".toList = clean_mineral_name "quartz".toList := by
  have hg1 : ¬((name.isEmpty || hey.isEmpty) = true) := by
    simp [hname, hhey]
  have hg2 : ¬((clean_mineral_name name).isEmpty = true) := by
    simp [hclean]
  refine ⟨fun m hm => ?_, fun h1 m hm => ?_, fun h1 h2 kv hkv => ?_, fun h1 h2 h3 => ?_,
    fun k m hk => fuzzyBest_threshold ratio hey _ threshold k m hk, by rfl⟩
  · simp only [match_mineral_name]
    rw [if_neg hg1, if_neg hg2, hm]
  · simp only [match_mineral_name]
    rw [if_neg hg1, if_neg hg2, h1, hm]
  · simp only [match_mineral_name]
    rw [if_neg hg1, if_neg hg2, h1, h2, hkv]
  · simp only [match_mineral_name]
    rw [if_neg hg1, if_neg hg2, h1, h2, h3]

/-- Witness for C5: an exact taxonomy key wins immediately. -/
theorem C5_match_mineral_name_witness :
    match_mineral_name (fun _ _ => 0) [("Quartz".toList, 7)] "Quartz".toList (8 / 10) =
      some ("Quartz".toList, (7 : ℕ)) :=
  (C5_match_mineral_name (fun _ _ => 0) [("Quartz".toList, 7)] "Quartz".toList (8 / 10)
    (by simp) (by simp) (by decide)).1 7 rfl

/-- C6: evaluation of the embedded `baseline_als` at invalid parameters.
With `niter = 0` (or any `niter ≤ 0`) the iteration loop never runs and the
function fails with Python's `UnboundLocalError` on `return z` — not a
validation error; with `lambda = 0` (and the scipy solver abstracted as a
function of the weights, `lambda` and the spectrum) the call is not rejected
at all and returns a baseline normally. -/
theorem C6_baseline_als_no_validation :
    baseline_als (fun _ _ y => y) [1, 2, 3] (10 ^ 5) (1 / 100) 0 = .error .unboundLocal ∧
    baseline_als (fun _ _ y => y) [1, 2, 3] (10 ^ 5) (1 / 100) (-3) =
      .error .unboundLocal ∧
    baseline_als (fun _ _ y => y) [1, 2, 3] 0 (1 / 100) 10 = .ok [1, 2, 3] ∧
    baseline_als (fun _ _ y => y) [1, 2, 3] (-1) (1 / 100) 10 = .ok [1, 2, 3] := by
  refine ⟨rfl, rfl, rfl, rfl⟩

/-- C9: whenever the legacy `subtract_background` returns, the corrected
spectrum is the elementwise clip `max 0 (intensity - baseline)`: every
element equals the difference when that difference is nonnegative and 0
otherwise, so the corrected spectrum is elementwise nonnegative. -/
theorem C9_subtract_background (solve : SparseSolve) (y : List ℚ) (lam p : ℚ) (niter : ℤ)
    (c b : List ℚ)
    (h : subtract_background solve (some y) lam p niter = .ok (c, b)) :
    c = List.zipWith (fun a z => max 0 (a - z)) y b ∧
    (∀ x ∈ c, 0 ≤ x) ∧
    ∀ (i : ℕ) (hy : i < y.length) (hb : i < b.length),
      c.getD i 0 = if 0 ≤ y.get ⟨i, hy⟩ - b.get ⟨i, hb⟩
        then y.get ⟨i, hy⟩ - b.get ⟨i, hb⟩ else 0 := by
  simp only [subtract_background] at h
  rcases hz : baseline_als solve y lam p niter with e | z
  · rw [hz] at h
    cases h
  · rw [hz] at h
    have h' : (if y.length = z.length then
          Except.ok (ε := PyError) (List.zipWith (fun a b => max 0 (a - b)) y z, z)
        else Except.error PyError.valueError) = Except.ok (c, b) := h
    by_cases hlen : y.length = z.length
    · rw [if_pos hlen] at h'
      injection h' with h1
      injection h1 with hc hb
      subst hb
      subst hc
      refine ⟨rfl, ?_, ?_⟩
      · intro x hx
        obtain ⟨i, hi, rfl⟩ := List.mem_iff_getElem.mp hx
        rw [List.getElem_zipWith]
        exact le_max_left 0 _
      · intro i hy hb
        have hi : i < (List.zipWith (fun a w => max 0 (a - w)) y z).length := by
          rw [List.length_zipWith]
          omega
        rw [List.getD_eq_getElem _ _ hi, List.getElem_zipWith]
        simp only [List.get_eq_getElem]
        rcases le_or_lt 0 (y[i] - z[i]) with hd | hd
        · rw [if_pos hd, max_eq_right hd]
        · rw [if_neg (not_le.mpr hd), max_eq_left (le_of_lt hd)]
    · rw [if_neg hlen] at h'
      cases h'

/-- Witness for C9: a two-point spectrum with the identity solver gives the
clipped corrected spectrum `[0, 0]`. -/
theorem C9_subtract_background_witness :
    ([0, 0] : List ℚ) = List.zipWith (fun a z => max 0 (a - z)) [3, 1] [3, 1] :=
  (C9_subtract_background (fun _ _ r => r) [3, 1] 1 (1 / 100) 1 [0, 0] [3, 1]
    (by norm_num [subtract_background, baseline_als, alsGo, alsWeightUpdate,
      List.replicate, List.zipWith])).1

theorem lookup_none_iff {α : Type} (l : List (String × α)) (k : String) :
    l.lookup k = none ↔ k ∉ l.map Prod.fst := by
  induction l with
  | nil => simp
  | cons kv l ih =>
    rcases kv with ⟨a, v⟩
    by_cases h : k = a
    · subst h
      simp [List.lookup_cons]
    · have hba : (k == a) = false := beq_eq_false_iff_ne.mpr h
      simp [List.lookup_cons, hba, ih, h]

theorem lookup_eraseP_self {α : Type} (db : List (String × α)) (name : String)
    (hnd : (db.map Prod.fst).Nodup) :
    (db.eraseP (fun kv => decide (kv.1 = name))).lookup name = none := by
  induction db with
  | nil => rfl
  | cons kv l ih =>
    rcases kv with ⟨a, v⟩
    have hnd' : a ∉ l.map Prod.fst ∧ (l.map Prod.fst).Nodup := List.nodup_cons.mp hnd
    by_cases h : a = name
    · rw [List.eraseP_cons_of_pos (by simp [h])]
      rw [lookup_none_iff]
      rw [← h]
      exact hnd'.1
    · rw [List.eraseP_cons_of_neg (by simp [h])]
      have hba : (name == a) = false := beq_eq_false_iff_ne.mpr (fun hc => h hc.symm)
      simp only [List.lookup_cons, hba]
      exact ih hnd'.2

theorem lookup_eraseP_ne {α : Type} (db : List (String × α)) (name k : String)
    (hk : k ≠ name) :
    (db.eraseP (fun kv => decide (kv.1 = name))).lookup k = db.lookup k := by
  induction db with
  | nil => rfl
  | cons kv l ih =>
    rcases kv with ⟨a, v⟩
    by_cases h : a = name
    · rw [List.eraseP_cons_of_pos (by simp [h])]
      have hba : (k == a) = false := beq_eq_false_iff_ne.mpr (fun hc => hk (h ▸ hc))
      simp [List.lookup_cons, hba]
    · rw [List.eraseP_cons_of_neg (by simp [h])]
      rcases hba : (k == a) with _ | _ <;> simp [List.lookup_cons, hba, ih]

theorem any_key_eq_lookup_isSome {α : Type} (db : List (String × α)) (name : String) :
    db.any (fun kv => decide (kv.1 = name)) = (db.lookup name).isSome := by
  induction db with
  | nil => rfl
  | cons kv l ih =>
    rcases kv with ⟨a, v⟩
    by_cases h : a = name
    · subst h
      simp [List.any_cons, List.lookup_cons]
    · have hba : (name == a) = false := beq_eq_false_iff_ne.mpr (fun hc => h hc.symm)
      simp [List.any_cons, List.lookup_cons, hba, ih, h]

theorem mem_of_lookup_eq_some {α : Type} (db : List (String × α)) (name : String) (v : α)
    (h : db.lookup name = some v) : (name, v) ∈ db := by
  induction db with
  | nil => cases h
  | cons kv l ih =>
    rcases kv with ⟨a, w⟩
    rcases hba : (name == a) with _ | _
    · rw [List.lookup_cons, hba] at h
      exact List.mem_cons_of_mem _ (ih h)
    · rw [List.lookup_cons, hba] at h
      have ha : name = a := beq_iff_eq.mp hba
      injection h with hv
      subst ha
      subst hv
      exact List.mem_cons_self _ _

/-- C10: `remove_from_database` returns `False` and leaves the database
unchanged when the name is not a key; when the name is a key it reports
`True`, removes exactly that entry (the name no longer resolves, the size
drops by one, and an entry survives iff it was present with a different
key), and every other key still maps to its old value. -/
theorem C10_remove_from_database {α : Type} (db : List (String × α)) (name : String)
    (hnd : (db.map Prod.fst).Nodup) :
    (db.lookup name = none → remove_from_database db name = (db, false)) ∧
    (∀ v, db.lookup name = some v →
      (remove_from_database db name).2 = true ∧
      (remove_from_database db name).1.lookup name = none ∧
      (∀ k, k ≠ name → (remove_from_database db name).1.lookup k = db.lookup k) ∧
      (remove_from_database db name).1.length + 1 = db.length ∧
      (∀ kv, kv ∈ (remove_from_database db name).1 ↔ kv ∈ db ∧ kv.1 ≠ name)) := by
  constructor
  · intro h
    unfold remove_from_database
    rw [if_neg]
    rw [any_key_eq_lookup_isSome, h]
    simp
  · intro v hv
    have hsome : (remove_from_database db name) =
        (db.eraseP (fun kv => decide (kv.1 = name)), true) := by
      unfold remove_from_database
      rw [if_pos]
      rw [any_key_eq_lookup_isSome, hv]
      rfl
    rw [hsome]
    dsimp only
    refine ⟨rfl, lookup_eraseP_self db name hnd, fun k hk => lookup_eraseP_ne db name k hk,
      ?_, fun kv => ?_⟩
    · have hmem := mem_of_lookup_eq_some db name v hv
      have hlen := @List.length_eraseP_of_mem _ db (name, v)
        (fun kv => decide (kv.1 = name)) hmem (decide_eq_true rfl)
      have hpos : 0 < db.length := List.length_pos.mpr (by
        intro hnil
        rw [hnil] at hmem
        cases hmem)
      simp only [hlen]
      omega
    · constructor
      · intro hm
        refine ⟨List.mem_of_mem_eraseP hm, ?_⟩
        intro hkey
        have hmap := List.mem_map_of_mem Prod.fst hm
        rw [hkey] at hmap
        exact (lookup_none_iff _ name).mp (lookup_eraseP_self db name hnd) hmap
      · intro ⟨hm, hne⟩
        exact (List.mem_eraseP_of_neg (by simp [hne])).mpr hm

/-- Witness for C10 at a concrete two-entry database. -/
theorem C10_remove_from_database_witness :
    (remove_from_database [("a", (1 : ℕ)), ("b", 2)] "a").2 = true :=
  ((C10_remove_from_database [("a", (1 : ℕ)), ("b", 2)] "a" (by simp)).2 1 rfl).1
